import Mathlib

/-!
Shallow embedding of `src/Functions/FunctionsTimeWindow.h`: the per-unit
`ToStartOfTransform` and `AddTime` specializations used by the TUMBLE/HOP
time-window functions.

Machine integers are modelled as `Int`/`Nat` with explicit reductions modulo
`2 ^ 64` and `2 ^ 32`.  The C++ usual arithmetic conversions matter here: in
`val % delta` the `Int64` operand `val` is first converted to `UInt64`
(because `delta` is `UInt64`), so the residue is taken on the unsigned
two's-complement reinterpretation of `val`; this conversion is made explicit
through `uns64` below.  Signed overflow in the `NO_SANITIZE_UNDEFINED`
paths, and the final `Int64`/`Int32` narrowing conversions, are modelled as
two's-complement wraparound via `wrap64`/`wrap32`.
-/

namespace TimeWindow

/-- Value of a C++ conversion of a 64-bit quantity to `UInt64`:
reduction modulo `2 ^ 64` into `[0, 2 ^ 64)`. -/
def uns64 (x : ℤ) : ℤ := x % 2 ^ 64

/-- Value of a C++ conversion of a 64-bit quantity to `Int64`:
two's-complement wraparound into `[-2 ^ 63, 2 ^ 63)`. -/
def wrap64 (x : ℤ) : ℤ := (x + 2 ^ 63) % 2 ^ 64 - 2 ^ 63

/-- Value of a C++ `static_cast<UInt32>`: reduction modulo `2 ^ 32`. -/
def uns32 (x : ℤ) : ℤ := x % 2 ^ 32

/-- Value of a C++ `static_cast<Int32>`: two's-complement wraparound into
`[-2 ^ 31, 2 ^ 31)`. -/
def wrap32 (x : ℤ) : ℤ := (x + 2 ^ 31) % 2 ^ 32 - 2 ^ 31

/-- `DecimalUtils::scaleMultiplier<DateTime64>(k) = 10 ^ k` (an `Int64`
power-of-ten table lookup in the source; exact for the scale differences,
at most 9, that `DateTime64` admits). -/
def scaleMultiplier (k : ℕ) : ℤ := 10 ^ k

/-- Opaque stand-in for the `DateLUTImpl` calendar/timezone service reference.
The fixed-duration `AddTime` specializations receive it and ignore it. -/
structure DateLUTImpl where
  id : ℕ

/-- Body of the `TRANSFORM_SUBSECONDS(INTERVAL_KIND, DEF_SCALE)` macro
(`ToStartOfTransform<Millisecond/Microsecond/Nanosecond>::execute`), lines
76-95 of `FunctionsTimeWindow.h`:

  if (scale <= DEF_SCALE) {
    auto val = t * DecimalUtils::scaleMultiplier<DateTime64>(DEF_SCALE - scale);
    if (delta == 1) return val; else return val - (val % delta);
  } else
    return t - (t % (delta * DecimalUtils::scaleMultiplier<DateTime64>(scale - DEF_SCALE)));

`t` is `Int64`, `delta` is `UInt64` (so its value lies in `[0, 2 ^ 64)`),
`scale` is `UInt32`.  In `val % delta` and `t % (...)` the signed operand is
converted to `UInt64` and the `%` is the unsigned one; the subtraction is
performed in `UInt64` and the result is narrowed back to `Int64`.  The
rescaling product `t * 10 ^ (DEF_SCALE - scale)` is signed 64-bit arithmetic,
modelled as wraparound.  (When `delta * 10 ^ (scale - DEF_SCALE)` wraps to 0
the C++ `%` is undefined behaviour; `Int.emod x 0 = x` makes this case total
here, and all theorems below keep the modulus nonzero.) -/
def toStartOfSubsecond (defScale : ℕ) (t : ℤ) (delta : ℕ) (scale : ℕ) : ℤ :=
  if scale ≤ defScale then
    (let val := wrap64 (t * scaleMultiplier (defScale - scale));
      if delta = 1 then val
      else wrap64 (uns64 val - uns64 val % (delta : ℤ)))
  else
    (let m := uns64 ((delta : ℤ) * scaleMultiplier (scale - defScale));
      wrap64 (uns64 t - uns64 t % m))

/-- `ToStartOfTransform<IntervalKind::Kind::Millisecond>::execute` (native scale 3). -/
def ToStartOfTransform_Millisecond (t : ℤ) (delta : ℕ) (scale : ℕ) : ℤ :=
  toStartOfSubsecond 3 t delta scale

/-- `ToStartOfTransform<IntervalKind::Kind::Microsecond>::execute` (native scale 6). -/
def ToStartOfTransform_Microsecond (t : ℤ) (delta : ℕ) (scale : ℕ) : ℤ :=
  toStartOfSubsecond 6 t delta scale

/-- `ToStartOfTransform<IntervalKind::Kind::Nanosecond>::execute` (native scale 9). -/
def ToStartOfTransform_Nanosecond (t : ℤ) (delta : ℕ) (scale : ℕ) : ℤ :=
  toStartOfSubsecond 9 t delta scale

/-- Body of the `ADD_SUBSECONDS(INTERVAL_KIND, DEF_SCALE)` macro
(`AddTime<Millisecond/Microsecond/Nanosecond>::execute`), lines 140-153:

  if (scale < DEF_SCALE)
    return t + delta * DecimalUtils::scaleMultiplier<DateTime64>(DEF_SCALE - scale);
  else
    return t + delta * DecimalUtils::scaleMultiplier<DateTime64>(scale - DEF_SCALE);

`delta` is `UInt64`, so the product is computed in `UInt64` (mod `2 ^ 64`),
the addition likewise, and the sum is narrowed back to `Int64`
(`NO_SANITIZE_UNDEFINED`: deliberate wraparound). -/
def addSubsecond (defScale : ℕ) (t : ℤ) (delta : ℕ) (scale : ℕ) : ℤ :=
  if scale < defScale then
    wrap64 (uns64 t + uns64 ((delta : ℤ) * scaleMultiplier (defScale - scale)))
  else
    wrap64 (uns64 t + uns64 ((delta : ℤ) * scaleMultiplier (scale - defScale)))

/-- `AddTime<IntervalKind::Kind::Millisecond>::execute` (native scale 3). -/
def AddTime_Millisecond (t : ℤ) (delta : ℕ) (scale : ℕ) : ℤ :=
  addSubsecond 3 t delta scale

/-- `AddTime<IntervalKind::Kind::Microsecond>::execute` (native scale 6). -/
def AddTime_Microsecond (t : ℤ) (delta : ℕ) (scale : ℕ) : ℤ :=
  addSubsecond 6 t delta scale

/-- `AddTime<IntervalKind::Kind::Nanosecond>::execute` (native scale 9). -/
def AddTime_Nanosecond (t : ℤ) (delta : ℕ) (scale : ℕ) : ℤ :=
  addSubsecond 9 t delta scale

/-- Body of the `ADD_TIME(INTERVAL_KIND, INTERVAL)` macro, lines 127-133:

  static inline NO_SANITIZE_UNDEFINED UInt32 execute(UInt32 t, Int64 delta, const DateLUTImpl &)
  { return static_cast<UInt32>(t + delta * INTERVAL); }

`delta * INTERVAL` is signed 64-bit (wraparound), `t` is promoted to `Int64`,
the sum wraps in 64 bits, and the result is truncated to `UInt32`.  The
`DateLUTImpl` argument is ignored. -/
def addTimeFixed (interval : ℤ) (t : ℕ) (delta : ℤ) (tz : DateLUTImpl) : ℤ :=
  uns32 (wrap64 ((t : ℤ) + wrap64 (delta * interval)))

/-- `AddTime<IntervalKind::Kind::Day>::execute` (86400 seconds). -/
def AddTime_Day (t : ℕ) (delta : ℤ) (tz : DateLUTImpl) : ℤ := addTimeFixed 86400 t delta tz

/-- `AddTime<IntervalKind::Kind::Hour>::execute` (3600 seconds). -/
def AddTime_Hour (t : ℕ) (delta : ℤ) (tz : DateLUTImpl) : ℤ := addTimeFixed 3600 t delta tz

/-- `AddTime<IntervalKind::Kind::Minute>::execute` (60 seconds). -/
def AddTime_Minute (t : ℕ) (delta : ℤ) (tz : DateLUTImpl) : ℤ := addTimeFixed 60 t delta tz

/-- `AddTime<IntervalKind::Kind::Second>::execute` (1 second). -/
def AddTime_Second (t : ℕ) (delta : ℤ) (tz : DateLUTImpl) : ℤ := addTimeFixed 1 t delta tz

/-- `AddTime<IntervalKind::Kind::Week>::execute`, lines 118-125:

  static inline NO_SANITIZE_UNDEFINED ExtendedDayNum execute(UInt16 d, UInt64 delta, const DateLUTImpl &)
  { return ExtendedDayNum(static_cast<Int32>(d + delta * 7)); }

`delta * 7` is computed in `UInt64` (mod `2 ^ 64`), `d` is promoted and
converted to `UInt64` for the addition, and the sum is narrowed to `Int32`.
The `DateLUTImpl` argument is ignored (no calendar lookup). -/
def AddTime_Week (d : ℕ) (delta : ℕ) (tz : DateLUTImpl) : ℤ :=
  wrap32 (uns64 ((d : ℤ) + uns64 ((delta : ℤ) * 7)))

/-- Variant of `toStartOfSubsecond` in which the `delta == 1` fast path is
removed and the general `val - (val % delta)` branch is used for every
`delta` (used to state that the fast path is semantics-preserving). -/
def toStartOfSubsecondNoFast (defScale : ℕ) (t : ℤ) (delta : ℕ) (scale : ℕ) : ℤ :=
  if scale ≤ defScale then
    (let val := wrap64 (t * scaleMultiplier (defScale - scale));
      wrap64 (uns64 val - uns64 val % (delta : ℤ)))
  else
    (let m := uns64 ((delta : ℤ) * scaleMultiplier (scale - defScale));
      wrap64 (uns64 t - uns64 t % m))

/-- The sub-second truncation exactly as the specification words it, with
`mod` read as the mathematical residue operation on integers (nonnegative
residue for a positive modulus, namely `Int.emod`) and the arithmetic read as
exact integer arithmetic.  Used to compare the spec text against the source. -/
def specSubsecondTruncate (defScale : ℕ) (t : ℤ) (delta : ℕ) (scale : ℕ) : ℤ :=
  if scale ≤ defScale then
    (let val := t * scaleMultiplier (defScale - scale);
      if delta = 1 then val else val - val % (delta : ℤ))
  else
    t - t % ((delta : ℤ) * scaleMultiplier (scale - defScale))

/-- Modelled from the spec: the batch-level argument validation of the window
functions.  The dispatch code (`TimeWindowImpl<...>::dispatchForColumns` in
`FunctionsTimeWindow.cpp`) is not part of `src/`; per the spec, a zero or
negative interval delta used as a window size is a user error reported before
any row is evaluated, so only a positive delta ever reaches the per-row
truncation primitive. -/
def dispatchTumbleSubsecond (defScale : ℕ) (delta : ℤ) (scale : ℕ) (rows : List ℤ) :
    Except String (List ℤ) :=
  if delta ≤ 0 then Except.error ("Value of the interval must be positive")
  else Except.ok (rows.map (fun t => toStartOfSubsecond defScale t delta.toNat scale))

/-- Modelled from the spec: a window id is an opaque encoding of a window
boundary, sufficient to be decomposed back into start and end (the concrete
encoding lives in `FunctionsTimeWindow.cpp`, not in `src/`). -/
structure WindowId where
  wstart : ℤ
  wend : ℤ

/-- Decoding a window id: return the encoded start bound directly. -/
def WindowId.startBound (w : WindowId) : ℤ := w.wstart

/-- Decoding a window id: return the encoded end bound directly. -/
def WindowId.endBound (w : WindowId) : ℤ := w.wend

/-- TUMBLE_START from raw arguments at a sub-second unit: the start of the
containing tumbling window, computed by the in-source truncation primitive. -/
def tumbleStartRaw (defScale : ℕ) (t : ℤ) (delta : ℕ) (scale : ℕ) : ℤ :=
  toStartOfSubsecond defScale t delta scale

/-- TUMBLE_END from raw arguments at a sub-second unit: the window start
advanced by one window size via the in-source addition primitive, at the
truncation output's scale (the native scale when `scale ≤ defScale`). -/
def tumbleEndRaw (defScale : ℕ) (t : ℤ) (delta : ℕ) (scale : ℕ) : ℤ :=
  addSubsecond defScale (toStartOfSubsecond defScale t delta scale) delta
    (if scale ≤ defScale then defScale else scale)

/-- Modelled from the spec: WINDOW_ID at a sub-second unit packages the same
tumbling-window boundary as TUMBLE, encoded as an opaque identifier. -/
def windowIdTumble (defScale : ℕ) (t : ℤ) (delta : ℕ) (scale : ℕ) : WindowId :=
  { wstart := toStartOfSubsecond defScale t delta scale
    wend := addSubsecond defScale (toStartOfSubsecond defScale t delta scale) delta
      (if scale ≤ defScale then defScale else scale) }

/-- HOP_START from raw arguments: the canonical hop window of period
`hopDelta` containing `t` starts at the hop-aligned truncation of `t` (the
latest hop-aligned start still covering `t`, since the window span is at
least the hop period). -/
def hopStartRaw (defScale : ℕ) (t : ℤ) (hopDelta winDelta : ℕ) (scale : ℕ) : ℤ :=
  toStartOfSubsecond defScale t hopDelta scale

/-- HOP_END from raw arguments: the canonical hop window's start advanced by
the window span `winDelta`. -/
def hopEndRaw (defScale : ℕ) (t : ℤ) (hopDelta winDelta : ℕ) (scale : ℕ) : ℤ :=
  addSubsecond defScale (toStartOfSubsecond defScale t hopDelta scale) winDelta
    (if scale ≤ defScale then defScale else scale)

/-- Modelled from the spec: WINDOW_ID for a hop window packages the canonical
hop-window boundary as an opaque identifier. -/
def windowIdHop (defScale : ℕ) (t : ℤ) (hopDelta winDelta : ℕ) (scale : ℕ) : WindowId :=
  { wstart := toStartOfSubsecond defScale t hopDelta scale
    wend := addSubsecond defScale (toStartOfSubsecond defScale t hopDelta scale) winDelta
      (if scale ≤ defScale then defScale else scale) }

/-! Arithmetic facts about the fixed-width conversions. -/

lemma uns64_nonneg (x : ℤ) : 0 ≤ uns64 x :=
  Int.emod_nonneg x (by norm_num)

lemma uns64_lt (x : ℤ) : uns64 x < 2 ^ 64 :=
  Int.emod_lt_of_pos x (by norm_num)

lemma uns64_emod (x : ℤ) : uns64 x % 2 ^ 64 = x % 2 ^ 64 :=
  Int.emod_emod_of_dvd x dvd_rfl

lemma wrap64_congr {x y : ℤ} (h : x % 2 ^ 64 = y % 2 ^ 64) : wrap64 x = wrap64 y := by
  unfold wrap64
  rw [Int.add_emod, h, ← Int.add_emod]

lemma wrap64_lb (x : ℤ) : -2 ^ 63 ≤ wrap64 x := by
  unfold wrap64
  have h := Int.emod_nonneg (x + 2 ^ 63) (show (2 : ℤ) ^ 64 ≠ 0 by norm_num)
  linarith

lemma wrap64_ub (x : ℤ) : wrap64 x < 2 ^ 63 := by
  unfold wrap64
  have h := Int.emod_lt_of_pos (x + 2 ^ 63) (show (0 : ℤ) < 2 ^ 64 by norm_num)
  have h2 : (2 : ℤ) ^ 64 = 2 ^ 63 + 2 ^ 63 := by norm_num
  linarith

lemma wrap64_eq_self {x : ℤ} (h1 : -2 ^ 63 ≤ x) (h2 : x < 2 ^ 63) : wrap64 x = x := by
  unfold wrap64
  have hN : (2 : ℤ) ^ 64 = 2 ^ 63 + 2 ^ 63 := by norm_num
  rw [Int.emod_eq_of_lt (by linarith) (by linarith)]
  ring

lemma wrap64_wrap64 (x : ℤ) : wrap64 (wrap64 x) = wrap64 x :=
  wrap64_eq_self (wrap64_lb x) (wrap64_ub x)

lemma wrap64_uns64 (x : ℤ) : wrap64 (uns64 x) = wrap64 x :=
  wrap64_congr (uns64_emod x)

lemma uns64_wrap64 (x : ℤ) : uns64 (wrap64 x) = uns64 x := by
  unfold uns64 wrap64
  rw [Int.sub_emod, Int.emod_emod_of_dvd _ dvd_rfl, ← Int.sub_emod]
  congr 1
  ring

lemma uns64_eq_of_nonneg {x : ℤ} (h0 : 0 ≤ x) (h1 : x < 2 ^ 64) : uns64 x = x :=
  Int.emod_eq_of_lt h0 h1

lemma emod_le_self {a b : ℤ} (ha : 0 ≤ a) (hb : 0 < b) : a % b ≤ a := by
  have h := Int.emod_add_ediv a b
  have h2 : 0 ≤ b * (a / b) := mul_nonneg hb.le (Int.ediv_nonneg ha hb.le)
  linarith

lemma sub_emod_eq_mul_ediv (a b : ℤ) : a - a % b = b * (a / b) := by
  have h := Int.emod_add_ediv a b
  linarith

lemma uns32_wrap64 (x : ℤ) : uns32 (wrap64 x) = uns32 x := by
  unfold uns32 wrap64
  rw [Int.sub_emod, Int.emod_emod_of_dvd _ (show (2 : ℤ) ^ 32 ∣ 2 ^ 64 by norm_num),
    ← Int.sub_emod]
  congr 1
  ring

lemma uns32_add_left_cancel (t : ℤ) {p q : ℤ} (h : p % 2 ^ 32 = q % 2 ^ 32) :
    uns32 (t + p) = uns32 (t + q) := by
  unfold uns32
  rw [Int.add_emod, h, ← Int.add_emod]

lemma wrap32_emod (x : ℤ) : wrap32 x % 2 ^ 32 = x % 2 ^ 32 := by
  unfold wrap32
  rw [Int.sub_emod, Int.emod_emod_of_dvd _ dvd_rfl, ← Int.sub_emod]
  congr 1
  ring

lemma wrap32_lb (x : ℤ) : -2 ^ 31 ≤ wrap32 x := by
  unfold wrap32
  have h := Int.emod_nonneg (x + 2 ^ 31) (show (2 : ℤ) ^ 32 ≠ 0 by norm_num)
  linarith

lemma wrap32_ub (x : ℤ) : wrap32 x < 2 ^ 31 := by
  unfold wrap32
  have h := Int.emod_lt_of_pos (x + 2 ^ 31) (show (0 : ℤ) < 2 ^ 32 by norm_num)
  have h2 : (2 : ℤ) ^ 32 = 2 ^ 31 + 2 ^ 31 := by norm_num
  linarith

/-- Core of the truncation analysis: when the bucket width is positive and
the start `v - (uns64 v) % W` does not underflow the signed 64-bit range, the
unsigned subtract-the-residue computation denotes exactly that start. -/
lemma trunc_core {v W : ℤ} (hW : 0 < W) (hv2 : v < 2 ^ 63) (hlow : -2 ^ 63 + W ≤ v) :
    wrap64 (uns64 v - uns64 v % W) = v - uns64 v % W := by
  have hr0 : 0 ≤ uns64 v % W := Int.emod_nonneg _ (ne_of_gt hW)
  have hr1 : uns64 v % W < W := Int.emod_lt_of_pos _ hW
  have hcong : (uns64 v - uns64 v % W) % 2 ^ 64 = (v - uns64 v % W) % 2 ^ 64 := by
    conv_rhs => rw [Int.sub_emod]
    rw [Int.sub_emod, uns64_emod]
  rw [wrap64_congr hcong, wrap64_eq_self (by linarith) (by linarith)]

/-- Core of the idempotence analysis: re-truncating a truncated unsigned
value subtracts nothing. -/
lemma trunc_fixpoint {u W : ℤ} (hu0 : 0 ≤ u) (hu1 : u < 2 ^ 64) (hW : 0 < W) :
    wrap64 (uns64 (wrap64 (u - u % W)) - uns64 (wrap64 (u - u % W)) % W) =
      wrap64 (u - u % W) := by
  have h0 : 0 ≤ u - u % W := by
    have := emod_le_self hu0 hW
    linarith
  have h1 : u - u % W < 2 ^ 64 := by
    have := Int.emod_nonneg u (ne_of_gt hW)
    linarith
  have hu : uns64 (wrap64 (u - u % W)) = u - u % W := by
    rw [uns64_wrap64, uns64_eq_of_nonneg h0 h1]
  have hz : (u - u % W) % W = 0 := by
    rw [sub_emod_eq_mul_ediv, Int.mul_emod_right]
  rw [hu, hz, sub_zero]

/-! Branch-value lemmas for the truncation and addition primitives. -/

lemma trunc_fine_one {defScale scale : ℕ} (t : ℤ) (hs : scale ≤ defScale) :
    toStartOfSubsecond defScale t 1 scale = wrap64 (t * scaleMultiplier (defScale - scale)) := by
  unfold toStartOfSubsecond
  rw [if_pos hs]
  rfl

lemma trunc_fine_gen {defScale scale : ℕ} (t : ℤ) (delta : ℕ) (hs : scale ≤ defScale)
    (hone : ¬ delta = 1) :
    toStartOfSubsecond defScale t delta scale =
      wrap64 (uns64 (wrap64 (t * scaleMultiplier (defScale - scale))) -
        uns64 (wrap64 (t * scaleMultiplier (defScale - scale))) % (delta : ℤ)) := by
  unfold toStartOfSubsecond
  rw [if_pos hs]
  dsimp only
  rw [if_neg hone]

lemma trunc_coarse {defScale scale : ℕ} (t : ℤ) (delta : ℕ) (hs : ¬ scale ≤ defScale) :
    toStartOfSubsecond defScale t delta scale =
      wrap64 (uns64 t - uns64 t % uns64 ((delta : ℤ) * scaleMultiplier (scale - defScale))) := by
  unfold toStartOfSubsecond
  rw [if_neg hs]

lemma add_branch (defScale scale : ℕ) (t : ℤ) (delta : ℕ) :
    addSubsecond defScale t delta scale =
      wrap64 (uns64 t + uns64 ((delta : ℤ) *
        scaleMultiplier (if scale < defScale then defScale - scale else scale - defScale))) := by
  unfold addSubsecond
  by_cases h : scale < defScale
  · rw [if_pos h, if_pos h]
  · rw [if_neg h, if_neg h]

lemma uns64_trunc (u W : ℤ) (hu0 : 0 ≤ u) (hu1 : u < 2 ^ 64) (hW : 0 < W) :
    uns64 (wrap64 (u - u % W)) = u - u % W := by
  have h0 : 0 ≤ u - u % W := by
    have := emod_le_self hu0 hW
    linarith
  have h1 : u - u % W < 2 ^ 64 := by
    have := Int.emod_nonneg u (ne_of_gt hW)
    linarith
  rw [uns64_wrap64, uns64_eq_of_nonneg h0 h1]

lemma scaleMultiplier_pos (k : ℕ) : (0 : ℤ) < scaleMultiplier k := by
  unfold scaleMultiplier
  positivity

/-- C1 (counterexample): at `t = Int64 min`, `delta = 3`, Millisecond unit at
its native scale, the truncation primitive wraps around and returns
`2 ^ 63 - 2`, which is not `≤ t`: the partition property fails for this
pre-epoch timestamp. -/
theorem subsecond_truncation_bucket_bounds_cex :
    ToStartOfTransform_Millisecond (-9223372036854775808) 3 3 = 9223372036854775806 ∧
    ¬ ToStartOfTransform_Millisecond (-9223372036854775808) 3 3 ≤ (-9223372036854775808 : ℤ) := by
  decide

/-- C1 (amended): partition property of the sub-second truncation primitive.
For every `Int64` timestamp `t`, positive `delta` and input scale, provided
the start of the containing bucket does not underflow the signed 64-bit
range (in the rescale branch: the rescaled value `val` is at least
`-2 ^ 63 + delta`; in the coarse branch: the width `delta * 10 ^ (scale -
defScale)` fits in `UInt64` and `t` is at least `-2 ^ 63` plus that width),
the returned bucket start `s` satisfies `s ≤ v < s + width`, where `v` is
the rescaled value in the rescale branch and `t` itself in the coarse
branch. -/
theorem subsecond_truncation_bucket_bounds (defScale : ℕ) (t : ℤ) (delta : ℕ) (scale : ℕ)
    (hd : 1 ≤ delta)
    (ht2 : t < 2 ^ 63)
    (h1 : scale ≤ defScale →
      -2 ^ 63 + (delta : ℤ) ≤ wrap64 (t * scaleMultiplier (defScale - scale)))
    (h2 : defScale < scale →
      (delta : ℤ) * scaleMultiplier (scale - defScale) < 2 ^ 64 ∧
      -2 ^ 63 + (delta : ℤ) * scaleMultiplier (scale - defScale) ≤ t) :
    (scale ≤ defScale →
      toStartOfSubsecond defScale t delta scale ≤
        wrap64 (t * scaleMultiplier (defScale - scale)) ∧
      wrap64 (t * scaleMultiplier (defScale - scale)) <
        toStartOfSubsecond defScale t delta scale + (delta : ℤ)) ∧
    (defScale < scale →
      toStartOfSubsecond defScale t delta scale ≤ t ∧
      t < toStartOfSubsecond defScale t delta scale +
        (delta : ℤ) * scaleMultiplier (scale - defScale)) := by
  have hd1 : (0 : ℤ) < (delta : ℤ) := by exact_mod_cast hd
  constructor
  · intro hs
    by_cases hone : delta = 1
    · subst hone
      rw [trunc_fine_one t hs]
      norm_num
    · rw [trunc_fine_gen t delta hs hone]
      have hval := h1 hs
      have hcore := trunc_core hd1 (wrap64_ub (t * scaleMultiplier (defScale - scale))) hval
      rw [hcore]
      have hr0 : 0 ≤ uns64 (wrap64 (t * scaleMultiplier (defScale - scale))) % (delta : ℤ) :=
        Int.emod_nonneg _ (ne_of_gt hd1)
      have hr1 : uns64 (wrap64 (t * scaleMultiplier (defScale - scale))) % (delta : ℤ) <
          (delta : ℤ) := Int.emod_lt_of_pos _ hd1
      constructor
      · linarith
      · linarith
  · intro hlt
    have hs : ¬ scale ≤ defScale := by omega
    obtain ⟨hWlt, hlow⟩ := h2 hlt
    have hW0 : (0 : ℤ) < (delta : ℤ) * scaleMultiplier (scale - defScale) :=
      mul_pos hd1 (scaleMultiplier_pos _)
    have hm : uns64 ((delta : ℤ) * scaleMultiplier (scale - defScale)) =
        (delta : ℤ) * scaleMultiplier (scale - defScale) :=
      uns64_eq_of_nonneg hW0.le hWlt
    rw [trunc_coarse t delta hs, hm]
    have hcore := trunc_core hW0 ht2 hlow
    rw [hcore]
    have hr0 : 0 ≤ uns64 t % ((delta : ℤ) * scaleMultiplier (scale - defScale)) :=
      Int.emod_nonneg _ (ne_of_gt hW0)
    have hr1 := Int.emod_lt_of_pos (uns64 t) hW0
    constructor
    · linarith
    · linarith

/-- C1 (witness): at Millisecond native scale, `t = -5`, `delta = 3`, the
bucket start `-7` satisfies `-7 ≤ -5 < -7 + 3`. -/
theorem subsecond_truncation_bucket_bounds_witness :
    toStartOfSubsecond 3 (-5) 3 3 ≤ wrap64 ((-5) * scaleMultiplier (3 - 3)) ∧
    wrap64 ((-5) * scaleMultiplier (3 - 3)) < toStartOfSubsecond 3 (-5) 3 3 + ((3 : ℕ) : ℤ) :=
  (subsecond_truncation_bucket_bounds 3 (-5) 3 3 (by decide) (by decide) (by decide)
    (by decide)).1 (by decide)

/-- C2 (counterexample): at `t = -5`, `delta = 3`, Millisecond unit at its
native scale, the source returns `-7`, while the formula
`val - (val mod delta)` with `mod` the mathematical residue returns `-6`
(and `-3` under a sign-following truncated `mod`): the C++ `%` converts the
signed `val` to `UInt64` first, so the spec formula as written does not
describe the code on negative timestamps. -/
theorem subsecond_truncation_formula_cex :
    ToStartOfTransform_Millisecond (-5) 3 3 = -7 ∧
    specSubsecondTruncate 3 (-5) 3 3 = -6 ∧
    ToStartOfTransform_Millisecond (-5) 3 3 ≠ specSubsecondTruncate 3 (-5) 3 3 := by
  decide

/-- C2 (amended): the sub-second truncation algorithm, with `mod` taken on
the dividend's unsigned 64-bit reinterpretation (as the C++ conversion rules
force) and barring wraparound of the bucket start: with rescaled value
`val = wrap64 (t * 10 ^ (defScale - scale))`, if `scale ≤ defScale` the
primitive returns `val` when `delta = 1` and otherwise
`val - (uns64 val) % delta`; if `scale > defScale` it returns
`t - (uns64 t) % (delta * 10 ^ (scale - defScale))`, keeping the original
scale.  For nonnegative `val` (resp. `t`) these coincide with the claim's
formulas, since `uns64` is the identity there. -/
theorem toStartOfSubsecond_closed_form (defScale : ℕ) (t : ℤ) (delta : ℕ) (scale : ℕ)
    (hd : 1 ≤ delta)
    (ht2 : t < 2 ^ 63)
    (h1 : scale ≤ defScale →
      -2 ^ 63 + (delta : ℤ) ≤ wrap64 (t * scaleMultiplier (defScale - scale)))
    (h2 : defScale < scale →
      (delta : ℤ) * scaleMultiplier (scale - defScale) < 2 ^ 64 ∧
      -2 ^ 63 + (delta : ℤ) * scaleMultiplier (scale - defScale) ≤ t) :
    (scale ≤ defScale →
      toStartOfSubsecond defScale t delta scale =
        (if delta = 1 then wrap64 (t * scaleMultiplier (defScale - scale))
         else wrap64 (t * scaleMultiplier (defScale - scale)) -
           uns64 (wrap64 (t * scaleMultiplier (defScale - scale))) % (delta : ℤ))) ∧
    (defScale < scale →
      toStartOfSubsecond defScale t delta scale =
        t - uns64 t % ((delta : ℤ) * scaleMultiplier (scale - defScale))) := by
  have hd1 : (0 : ℤ) < (delta : ℤ) := by exact_mod_cast hd
  constructor
  · intro hs
    by_cases hone : delta = 1
    · subst hone
      rw [trunc_fine_one t hs, if_pos rfl]
    · rw [trunc_fine_gen t delta hs hone, if_neg hone]
      exact trunc_core hd1 (wrap64_ub (t * scaleMultiplier (defScale - scale))) (h1 hs)
  · intro hlt
    have hs : ¬ scale ≤ defScale := by omega
    obtain ⟨hWlt, hlow⟩ := h2 hlt
    have hW0 : (0 : ℤ) < (delta : ℤ) * scaleMultiplier (scale - defScale) :=
      mul_pos hd1 (scaleMultiplier_pos _)
    have hm : uns64 ((delta : ℤ) * scaleMultiplier (scale - defScale)) =
        (delta : ℤ) * scaleMultiplier (scale - defScale) :=
      uns64_eq_of_nonneg hW0.le hWlt
    rw [trunc_coarse t delta hs, hm]
    exact trunc_core hW0 ht2 hlow

/-- C2 (witness): Millisecond unit, input scale 1, `t = 12345`, `delta = 7`:
the rescaled value is `1234500` and the primitive returns
`1234500 - 1234500 % 7 = 1234499`, as the closed form states. -/
theorem toStartOfSubsecond_closed_form_witness :
    toStartOfSubsecond 3 12345 7 1 =
      (if (7 : ℕ) = 1 then wrap64 (12345 * scaleMultiplier (3 - 1))
       else wrap64 (12345 * scaleMultiplier (3 - 1)) -
         uns64 (wrap64 (12345 * scaleMultiplier (3 - 1))) % ((7 : ℕ) : ℤ)) :=
  (toStartOfSubsecond_closed_form 3 12345 7 1 (by decide) (by decide) (by decide)
    (by decide)).1 (by decide)

/-- C10: the `delta == 1` fast path of the sub-second truncation is
semantics-preserving: the variant that always runs the general
`val - (val % delta)` branch agrees with the source primitive at
`delta = 1`, for every timestamp, native scale and input scale. -/
theorem delta_one_general_branch_equiv (defScale : ℕ) (t : ℤ) (scale : ℕ) :
    toStartOfSubsecondNoFast defScale t 1 scale = toStartOfSubsecond defScale t 1 scale := by
  by_cases hs : scale ≤ defScale
  · rw [trunc_fine_one t hs]
    unfold toStartOfSubsecondNoFast
    rw [if_pos hs]
    dsimp only
    push_cast
    rw [Int.emod_one, sub_zero, wrap64_uns64, wrap64_wrap64]
  · unfold toStartOfSubsecondNoFast toStartOfSubsecond
    rw [if_neg hs, if_neg hs]

/-- C3 (counterexample): at `t = Int64 max`, `delta = 1`, Millisecond at its
native scale, the addition primitive wraps to `Int64 min` rather than
returning the mathematical sum `t + 1`: the claimed unconditional equality
fails on overflow. -/
theorem addSubsecond_exact_cex :
    AddTime_Millisecond 9223372036854775807 1 3 = -9223372036854775808 ∧
    AddTime_Millisecond 9223372036854775807 1 3 ≠
      9223372036854775807 + ((1 : ℕ) : ℤ) * scaleMultiplier (3 - 3) := by
  decide

/-- C3 (amended): the sub-second addition primitive returns
`t + delta * 10 ^ (defScale - scale)` when `scale < defScale` and
`t + delta * 10 ^ (scale - defScale)` otherwise, reduced into the signed
64-bit range by two's-complement wraparound; the value is exactly the
mathematical sum whenever `t` and the sum lie in the `Int64` range. -/
theorem addSubsecond_adds_scaled_delta (defScale : ℕ) (t : ℤ) (delta : ℕ) (scale : ℕ) :
    addSubsecond defScale t delta scale =
      wrap64 (t + (delta : ℤ) *
        scaleMultiplier (if scale < defScale then defScale - scale else scale - defScale)) ∧
    (-2 ^ 63 ≤ t →
      -2 ^ 63 ≤ t + (delta : ℤ) *
        scaleMultiplier (if scale < defScale then defScale - scale else scale - defScale) →
      t + (delta : ℤ) *
        scaleMultiplier (if scale < defScale then defScale - scale else scale - defScale) <
        2 ^ 63 →
      addSubsecond defScale t delta scale =
        t + (delta : ℤ) *
          scaleMultiplier (if scale < defScale then defScale - scale else scale - defScale)) := by
  have hmod : addSubsecond defScale t delta scale =
      wrap64 (t + (delta : ℤ) *
        scaleMultiplier (if scale < defScale then defScale - scale else scale - defScale)) := by
    rw [add_branch]
    apply wrap64_congr
    rw [Int.add_emod, uns64_emod, uns64_emod, ← Int.add_emod]
  refine ⟨hmod, fun h0 hlo hhi => ?_⟩
  rw [hmod, wrap64_eq_self hlo hhi]

/-- C3 (witness): Millisecond unit, input scale 2, `t = 100`, `delta = 5`:
the primitive returns `100 + 5 * 10 = 150` exactly. -/
theorem addSubsecond_adds_scaled_delta_witness :
    addSubsecond 3 100 5 2 =
      100 + ((5 : ℕ) : ℤ) * scaleMultiplier (if 2 < 3 then 3 - 2 else 2 - 3) :=
  (addSubsecond_adds_scaled_delta 3 100 5 2).2 (by decide) (by decide) (by decide)

/-- C4: idempotence of the sub-second truncation: re-truncating the result
at its output scale (the native scale in the rescale branch, the original
scale in the coarse branch) returns it unchanged, for every `Int64`
timestamp and every positive `delta` whose effective bucket width fits in
`UInt64`. -/
theorem subsecond_truncation_idempotent (defScale : ℕ) (t : ℤ) (delta : ℕ) (scale : ℕ)
    (hd : 1 ≤ delta)
    (hW : defScale < scale → (delta : ℤ) * scaleMultiplier (scale - defScale) < 2 ^ 64) :
    toStartOfSubsecond defScale (toStartOfSubsecond defScale t delta scale) delta
      (if scale ≤ defScale then defScale else scale) =
    toStartOfSubsecond defScale t delta scale := by
  have hd1 : (0 : ℤ) < (delta : ℤ) := by exact_mod_cast hd
  by_cases hs : scale ≤ defScale
  · rw [if_pos hs]
    by_cases hone : delta = 1
    · subst hone
      rw [trunc_fine_one t hs, trunc_fine_one _ (le_refl defScale), Nat.sub_self]
      unfold scaleMultiplier
      rw [pow_zero, mul_one, wrap64_wrap64]
    · rw [trunc_fine_gen t delta hs hone, trunc_fine_gen _ delta (le_refl defScale) hone,
        Nat.sub_self]
      unfold scaleMultiplier
      rw [pow_zero, mul_one, wrap64_wrap64]
      exact trunc_fixpoint (uns64_nonneg _) (uns64_lt _) hd1
  · rw [if_neg hs]
    have hlt : defScale < scale := by omega
    have hW0 : (0 : ℤ) < (delta : ℤ) * scaleMultiplier (scale - defScale) :=
      mul_pos hd1 (scaleMultiplier_pos _)
    have hm : uns64 ((delta : ℤ) * scaleMultiplier (scale - defScale)) =
        (delta : ℤ) * scaleMultiplier (scale - defScale) :=
      uns64_eq_of_nonneg hW0.le (hW hlt)
    rw [trunc_coarse t delta hs, trunc_coarse _ delta hs, hm]
    exact trunc_fixpoint (uns64_nonneg t) (uns64_lt t) hW0

/-- C4 (witness): Millisecond at native scale, `t = 7`, `delta = 3`:
truncating the bucket start `6` again returns `6`. -/
theorem subsecond_truncation_idempotent_witness :
    toStartOfSubsecond 3 (toStartOfSubsecond 3 7 3 3) 3 (if 3 ≤ 3 then 3 else 3) =
      toStartOfSubsecond 3 7 3 3 :=
  subsecond_truncation_idempotent 3 7 3 3 (by decide) (by decide)

/-- The unsigned residue of a sub-second truncation result is divisible by
the effective bucket width at the output scale. -/
lemma trunc_uns_aligned (defScale : ℕ) (t : ℤ) (delta : ℕ) (scale : ℕ)
    (hd : 1 ≤ delta)
    (hW : defScale < scale → (delta : ℤ) * scaleMultiplier (scale - defScale) < 2 ^ 64) :
    ((delta : ℤ) * scaleMultiplier ((if scale ≤ defScale then defScale else scale) - defScale)) ∣
      uns64 (toStartOfSubsecond defScale t delta scale) := by
  have hd1 : (0 : ℤ) < (delta : ℤ) := by exact_mod_cast hd
  by_cases hs : scale ≤ defScale
  · simp only [if_pos hs, Nat.sub_self]
    by_cases hone : delta = 1
    · subst hone
      have h1 : ((1 : ℕ) : ℤ) * scaleMultiplier 0 = 1 := by
        unfold scaleMultiplier
        norm_num
      rw [h1]
      exact one_dvd _
    · unfold scaleMultiplier
      rw [pow_zero, mul_one]
      rw [trunc_fine_gen t delta hs hone,
        uns64_trunc _ _ (uns64_nonneg _) (uns64_lt _) hd1]
      exact ⟨_, sub_emod_eq_mul_ediv _ _⟩
  · simp only [if_neg hs]
    have hlt : defScale < scale := by omega
    have hW0 : (0 : ℤ) < (delta : ℤ) * scaleMultiplier (scale - defScale) :=
      mul_pos hd1 (scaleMultiplier_pos _)
    have hm : uns64 ((delta : ℤ) * scaleMultiplier (scale - defScale)) =
        (delta : ℤ) * scaleMultiplier (scale - defScale) :=
      uns64_eq_of_nonneg hW0.le (hW hlt)
    rw [trunc_coarse t delta hs, hm, uns64_trunc _ _ (uns64_nonneg t) (uns64_lt t) hW0]
    exact ⟨_, sub_emod_eq_mul_ediv _ _⟩

/-- A value in the `Int64` range whose unsigned residue is divisible by the
effective bucket width is a fixed point of the truncation primitive. -/
lemma trunc_fixes_aligned (defScale os : ℕ) (x : ℤ) (delta : ℕ)
    (hd1 : (0 : ℤ) < (delta : ℤ))
    (hos : defScale ≤ os)
    (hWout : (delta : ℤ) * scaleMultiplier (os - defScale) < 2 ^ 64)
    (halign : ((delta : ℤ) * scaleMultiplier (os - defScale)) ∣ uns64 x)
    (hx : wrap64 x = x) :
    toStartOfSubsecond defScale x delta os = x := by
  by_cases hcase : os ≤ defScale
  · have hos_eq : os = defScale := le_antisymm hcase hos
    subst hos_eq
    have hm1 : scaleMultiplier (os - os) = 1 := by
      rw [Nat.sub_self]
      unfold scaleMultiplier
      exact pow_zero 10
    rw [hm1, mul_one] at halign
    by_cases hone : delta = 1
    · subst hone
      rw [trunc_fine_one x (le_refl os), Nat.sub_self]
      unfold scaleMultiplier
      rw [pow_zero, mul_one, hx]
    · rw [trunc_fine_gen x delta (le_refl os) hone, Nat.sub_self]
      unfold scaleMultiplier
      rw [pow_zero, mul_one, uns64_wrap64, Int.emod_eq_zero_of_dvd halign, sub_zero,
        wrap64_uns64, hx]
  · have hW0 : (0 : ℤ) < (delta : ℤ) * scaleMultiplier (os - defScale) :=
      mul_pos hd1 (scaleMultiplier_pos _)
    rw [trunc_coarse x delta hcase, uns64_eq_of_nonneg hW0.le hWout,
      Int.emod_eq_zero_of_dvd halign, sub_zero, wrap64_uns64, hx]

/-- The unsigned residue of a sub-second addition at an output scale at
least the native scale, when neither the width nor the unsigned sum wraps. -/
lemma add_uns64 (defScale os : ℕ) (S : ℤ) (delta : ℕ)
    (hos : defScale ≤ os)
    (hd0 : (0 : ℤ) ≤ (delta : ℤ))
    (hWout : (delta : ℤ) * scaleMultiplier (os - defScale) < 2 ^ 64)
    (hroom : uns64 S + (delta : ℤ) * scaleMultiplier (os - defScale) < 2 ^ 64) :
    uns64 (addSubsecond defScale S delta os) =
      uns64 S + (delta : ℤ) * scaleMultiplier (os - defScale) := by
  rw [add_branch]
  have hnl : ¬ os < defScale := by omega
  rw [if_neg hnl]
  have hP0 : (0 : ℤ) ≤ (delta : ℤ) * scaleMultiplier (os - defScale) :=
    mul_nonneg hd0 (scaleMultiplier_pos _).le
  rw [uns64_eq_of_nonneg hP0 hWout, uns64_wrap64,
    uns64_eq_of_nonneg (add_nonneg (uns64_nonneg S) hP0) hroom]

/-- Every sub-second addition result is a fixed point of `wrap64`. -/
lemma add_wrap_fixed (defScale os : ℕ) (S : ℤ) (delta : ℕ) :
    wrap64 (addSubsecond defScale S delta os) = addSubsecond defScale S delta os := by
  rw [add_branch]
  exact wrap64_wrap64 _

/-- C5 (counterexample): Millisecond at native scale, `delta = 3`,
`t = -1`: the truncated start is `-1` (aligned in the unsigned domain),
advancing it by one window gives `2`, but truncating `2` gives `0 ≠ 2` —
the advancing crosses the unsigned wraparound seam at zero, so the claimed
consistency fails as stated. -/
theorem aligned_start_advance_cex :
    ToStartOfTransform_Millisecond (-1) 3 3 = -1 ∧
    AddTime_Millisecond (ToStartOfTransform_Millisecond (-1) 3 3) 3 3 = 2 ∧
    ToStartOfTransform_Millisecond
        (AddTime_Millisecond (ToStartOfTransform_Millisecond (-1) 3 3) 3 3) 3 3 = 0 ∧
    ToStartOfTransform_Millisecond
        (AddTime_Millisecond (ToStartOfTransform_Millisecond (-1) 3 3) 3 3) 3 3 ≠
      AddTime_Millisecond (ToStartOfTransform_Millisecond (-1) 3 3) 3 3 := by
  decide

/-- C5 (amended): advancing an aligned bucket start by one window size
yields a value that is itself a fixed point of truncation, provided the
start's unsigned 64-bit residue plus the window width does not wrap past
`2 ^ 64` (in particular whenever the aligned start is nonnegative), the
width fits in `UInt64`, and `delta` is a positive `UInt64` value.  The
addition and re-truncation happen at the truncation output's scale. -/
theorem aligned_start_advance_consistent (defScale : ℕ) (t : ℤ) (delta : ℕ) (scale : ℕ)
    (hd : 1 ≤ delta) (hd64 : (delta : ℤ) < 2 ^ 64)
    (hW : defScale < scale → (delta : ℤ) * scaleMultiplier (scale - defScale) < 2 ^ 64)
    (hroom : uns64 (toStartOfSubsecond defScale t delta scale) +
      (delta : ℤ) * scaleMultiplier ((if scale ≤ defScale then defScale else scale) - defScale) <
      2 ^ 64) :
    toStartOfSubsecond defScale
      (addSubsecond defScale (toStartOfSubsecond defScale t delta scale) delta
        (if scale ≤ defScale then defScale else scale)) delta
      (if scale ≤ defScale then defScale else scale) =
    addSubsecond defScale (toStartOfSubsecond defScale t delta scale) delta
      (if scale ≤ defScale then defScale else scale) := by
  have hd1 : (0 : ℤ) < (delta : ℤ) := by exact_mod_cast hd
  have halignS := trunc_uns_aligned defScale t delta scale hd hW
  by_cases hs : scale ≤ defScale
  · simp only [if_pos hs] at hroom halignS ⊢
    have hmult : (delta : ℤ) * scaleMultiplier (defScale - defScale) < 2 ^ 64 := by
      rw [Nat.sub_self]
      unfold scaleMultiplier
      rw [pow_zero, mul_one]
      exact hd64
    have hun := add_uns64 defScale defScale (toStartOfSubsecond defScale t delta scale) delta
      (le_refl _) hd1.le hmult hroom
    refine trunc_fixes_aligned defScale defScale _ delta hd1 (le_refl _) hmult ?_
      (add_wrap_fixed _ _ _ _)
    rw [hun]
    exact dvd_add halignS dvd_rfl
  · have hlt : defScale < scale := by omega
    simp only [if_neg hs] at hroom halignS ⊢
    have hWs := hW hlt
    have hun := add_uns64 defScale scale (toStartOfSubsecond defScale t delta scale) delta
      (le_of_lt hlt) hd1.le hWs hroom
    refine trunc_fixes_aligned defScale scale _ delta hd1 (le_of_lt hlt) hWs ?_
      (add_wrap_fixed _ _ _ _)
    rw [hun]
    exact dvd_add halignS dvd_rfl

/-- C5 (witness): Millisecond at native scale, `t = 5`, `delta = 3`: the
start is `3`, advancing gives `6`, and truncating `6` returns `6`. -/
theorem aligned_start_advance_consistent_witness :
    toStartOfSubsecond 3
      (addSubsecond 3 (toStartOfSubsecond 3 5 3 3) 3 (if 3 ≤ 3 then 3 else 3)) 3
      (if 3 ≤ 3 then 3 else 3) =
    addSubsecond 3 (toStartOfSubsecond 3 5 3 3) 3 (if 3 ≤ 3 then 3 else 3) :=
  aligned_start_advance_consistent 3 5 3 3 (by decide) (by decide) (by decide) (by decide)

lemma addTimeFixed_eq (c : ℤ) (t : ℕ) (delta : ℤ) (tz : DateLUTImpl) :
    addTimeFixed c t delta tz = uns32 ((t : ℤ) + delta * c) := by
  unfold addTimeFixed
  rw [uns32_wrap64]
  apply uns32_add_left_cancel
  have h := uns32_wrap64 (delta * c)
  unfold uns32 at h
  exact h

/-- C6: the Day/Hour/Minute/Second addition primitives return
`t + delta * unit_seconds` with unit seconds 86400/3600/60/1, reduced
modulo `2 ^ 32` (wraparound, total on all inputs), and the result is
independent of the timezone argument: no calendar lookup is performed. -/
theorem addtime_fixed_units (t : ℕ) (delta : ℤ) (tz tz2 : DateLUTImpl) :
    AddTime_Day t delta tz = uns32 ((t : ℤ) + delta * 86400) ∧
    AddTime_Hour t delta tz = uns32 ((t : ℤ) + delta * 3600) ∧
    AddTime_Minute t delta tz = uns32 ((t : ℤ) + delta * 60) ∧
    AddTime_Second t delta tz = uns32 ((t : ℤ) + delta * 1) ∧
    AddTime_Day t delta tz = AddTime_Day t delta tz2 ∧
    AddTime_Hour t delta tz = AddTime_Hour t delta tz2 ∧
    AddTime_Minute t delta tz = AddTime_Minute t delta tz2 ∧
    AddTime_Second t delta tz = AddTime_Second t delta tz2 :=
  ⟨addTimeFixed_eq 86400 t delta tz, addTimeFixed_eq 3600 t delta tz,
    addTimeFixed_eq 60 t delta tz, addTimeFixed_eq 1 t delta tz, rfl, rfl, rfl, rfl⟩

/-- C7: the Week addition primitive returns `day_number + delta * 7` under
wraparound modular arithmetic: the result is congruent to `d + 7 * delta`
modulo `2 ^ 32`, lies in the `Int32` range, and does not depend on the
timezone argument (no calendar-service call, no trapping, no range
validation — the function is total on the whole fixed-width domain,
including negative deltas encoded as large unsigned values). -/
theorem addtime_week_modular (d : ℕ) (delta : ℕ) (tz tz2 : DateLUTImpl) :
    AddTime_Week d delta tz % 2 ^ 32 = ((d : ℤ) + (delta : ℤ) * 7) % 2 ^ 32 ∧
    -2 ^ 31 ≤ AddTime_Week d delta tz ∧ AddTime_Week d delta tz < 2 ^ 31 ∧
    AddTime_Week d delta tz = AddTime_Week d delta tz2 := by
  refine ⟨?_, wrap32_lb _, wrap32_ub _, rfl⟩
  unfold AddTime_Week
  rw [wrap32_emod]
  rw [show uns64 ((d : ℤ) + uns64 ((delta : ℤ) * 7)) % 2 ^ 32 =
      ((d : ℤ) + uns64 ((delta : ℤ) * 7)) % 2 ^ 32 from
    Int.emod_emod_of_dvd _ (by norm_num)]
  rw [Int.add_emod, show uns64 ((delta : ℤ) * 7) % 2 ^ 32 = ((delta : ℤ) * 7) % 2 ^ 32 from
    Int.emod_emod_of_dvd _ (by norm_num), ← Int.add_emod]

/-- C8: batch-level rejection of non-positive window sizes (dispatch
modelled from the spec): a delta that is zero or negative yields a user
error before any row is evaluated, and only a positive delta reaches the
truncation primitive, with a positive (hence nonzero) modulus. -/
theorem dispatch_rejects_nonpositive_delta (defScale : ℕ) (delta : ℤ) (scale : ℕ)
    (rows : List ℤ) :
    (delta ≤ 0 → dispatchTumbleSubsecond defScale delta scale rows =
      Except.error ("Value of the interval must be positive")) ∧
    (0 < delta → dispatchTumbleSubsecond defScale delta scale rows =
      Except.ok (rows.map (fun t => toStartOfSubsecond defScale t delta.toNat scale)) ∧
      1 ≤ delta.toNat) := by
  constructor
  · intro h
    unfold dispatchTumbleSubsecond
    rw [if_pos h]
  · intro h
    constructor
    · unfold dispatchTumbleSubsecond
      rw [if_neg (by omega)]
    · omega

/-- C8 (witness): a zero window size on a batch of one row is rejected with
the user error, before the row is touched. -/
theorem dispatch_rejects_nonpositive_delta_witness :
    dispatchTumbleSubsecond 3 0 3 [7] =
      Except.error ("Value of the interval must be positive") :=
  (dispatch_rejects_nonpositive_delta 3 0 3 [7]).1 (by norm_num)

/-- C9: window-id round trip (WINDOW_ID packaging and bound decoding
modelled from the spec, bounds computed by the in-source primitives):
decoding the start/end of a previously computed tumble or hop window id
returns exactly the bound the raw-argument path computes. -/
theorem window_id_round_trip (defScale : ℕ) (t : ℤ) (delta hopDelta winDelta : ℕ)
    (scale : ℕ) :
    (windowIdTumble defScale t delta scale).startBound = tumbleStartRaw defScale t delta scale ∧
    (windowIdTumble defScale t delta scale).endBound = tumbleEndRaw defScale t delta scale ∧
    (windowIdHop defScale t hopDelta winDelta scale).startBound =
      hopStartRaw defScale t hopDelta winDelta scale ∧
    (windowIdHop defScale t hopDelta winDelta scale).endBound =
      hopEndRaw defScale t hopDelta winDelta scale :=
  ⟨rfl, rfl, rfl, rfl⟩

end TimeWindow
